import Mathlib

/-!
Shallow embedding of the OvenMediaEngine Orchestrator
(src/projects/orchestrator/orchestrator.cpp and src/projects/base/info/application.h).

Machine integers (`info::application_id_t` = `uint32_t`) are modelled as `Nat`
with explicit `% 2^32` where overflow matters.  The `std::map<application_id_t,
info::Application>` application table is modelled as a `List AppInfo`; lookups
by id/name are `List.find?`, erasure by key is `List.filter`, which agrees with
the map because ids are unique in every reachable state.  Module callbacks
(`OnCreateApplication`, `OnDeleteApplication`, `PullStream`) are pure Boolean
behaviour functions carried by each module value; invocations are recorded in
an explicit event trace.
-/

namespace Orch

/-- `info::InvalidApplicationId = std::numeric_limits<uint32_t>::max()`. -/
def invalidApplicationId : Nat := 2 ^ 32 - 1

/-- `info::MinApplicationId = 0U`. -/
def minApplicationId : Nat := 0

/-- `info::MaxApplicationId = InvalidApplicationId - 1U`. -/
def maxApplicationId : Nat := invalidApplicationId - 1

/-- One step of the counter in `Orchestrator::GetNextAppId`:
`_last_application_id++` on a `uint32_t` (hence the `% 2^32`), followed by
`if (_last_application_id == info::MaxApplicationId) _last_application_id = info::MinApplicationId`. -/
def nextId (c : Nat) : Nat :=
  if (c + 1) % 2 ^ 32 = maxApplicationId then minApplicationId
  else (c + 1) % 2 ^ 32

/-- The `while (true)` loop of `Orchestrator::GetNextAppId`, with explicit fuel;
`none` models divergence.  `occ` is the occupancy check
`_app_map.find(_last_application_id) != _app_map.end()`. -/
def getNextAppIdAux (occ : Nat → Bool) : Nat → Nat → Option Nat
  | 0, _ => none
  | fuel + 1, last =>
    if occ (nextId last) then getNextAppIdAux occ fuel (nextId last)
    else some (nextId last)

/-- Fuel large enough to traverse the whole id space once. -/
def idFuel : Nat := 2 ^ 32

/-- `ov::String::HasPrefix`: byte-wise comparison of the head of `s` against
`p` (character-wise on the underlying data, which coincides for the ASCII
configuration strings involved). -/
def strHasPrefix (s p : String) : Bool :=
  p.data.isPrefixOf s.data

/-- `ov::String::Substring(n)`: the tail of the string after the first `n`
characters. -/
def strDrop (s : String) (n : Nat) : String :=
  String.mk (s.data.drop n)

/-- `ov::String::GetLength()`. -/
def strLen (s : String) : Nat :=
  s.data.length

/-- ASCII lower-casing of one character, as `ov::String::LowerCaseString`
does per byte. -/
def lowerChar (c : Char) : Char :=
  if 65 ≤ c.toNat ∧ c.toNat ≤ 90 then Char.ofNat (c.toNat + 32) else c

/-- `ov::String::LowerCaseString()`. -/
def lowerStr (s : String) : String :=
  String.mk (s.data.map lowerChar)

/-- One entry of `Orchestrator::_origin_list` (`Orchestrator::Origin`,
built from a `cfg::Origin`): a location, a scheme, and URL templates. -/
structure Origin where
  location : String
  scheme : String
  urlList : List String
  deriving DecidableEq, Repr

/-- The location string built by `Orchestrator::GetUrlListForLocation`:
`ov::String::FormatString("/%s/%s", app_name, stream_name)`. -/
def locationOf (appName streamName : String) : String :=
  "/" ++ appName ++ "/" ++ streamName

/-- Loop body of `Orchestrator::GetUrlListForLocation` over `_origin_list`:
first rule whose `location` field is a byte-prelude of the requested location
wins; its templates get `scheme ++ "://"` prepended and the remaining part
appended; a match with an empty URL list returns `none` (the C++ returns
`nullptr` at that point, without trying later rules). -/
def getUrlListForLocationAux (location : String) : List Origin → Option (Origin × List String)
  | [] => none
  | o :: rest =>
    if strHasPrefix location o.location then
      let remaining := strDrop location (strLen o.location)
      let urls := o.urlList.map (fun u => o.scheme ++ "://" ++ u ++ remaining)
      if urls.length > 0 then some (o, urls) else none
    else getUrlListForLocationAux location rest

/-- `Orchestrator::GetUrlListForLocation`. -/
def getUrlListForLocation (origins : List Origin) (appName streamName : String) :
    Option (Origin × List String) :=
  getUrlListForLocationAux (locationOf appName streamName) origins

/-- The first rule of the list whose location is a byte-prelude of the
requested location (the first-match rule of the resolution loop). -/
def firstMatchingOrigin (origins : List Origin) (location : String) : Option Origin :=
  origins.find? (fun o => strHasPrefix location o.location)

/-- `OrchestratorModuleType` (the kinds appearing in the studied code paths). -/
inductive ModuleType where
  | Provider
  | Publisher
  | MediaRouter
  deriving DecidableEq, Repr

/-- `ProviderType` as used by `Orchestrator::GetProviderForScheme`. -/
inductive ProviderType where
  | Rtmp
  | Rtsp
  | Ovt
  deriving DecidableEq, Repr

/-- `info::Application`: id and name (the configuration payload is opaque to
the studied code paths and is omitted). -/
structure AppInfo where
  id : Nat
  name : String
  deriving DecidableEq, Repr

/-- `info::Application::GetInvalidApplication()`: default-constructed, its id
is `InvalidApplicationId` and its name is the empty `ov::String`. -/
def invalidApplication : AppInfo := ⟨invalidApplicationId, ""⟩

/-- `info::Application::IsValid()`. -/
def AppInfo.isValid (a : AppInfo) : Bool := a.id ≠ invalidApplicationId

/-- A module descriptor.  `mid` stands for the `shared_ptr` identity (the
pointer value used by `info.module == module` comparisons).  `providerType`
is `some pt` exactly when `std::dynamic_pointer_cast<pvd::Provider>` succeeds
and `GetProviderType()` returns `pt`; `none` models a failed cast.  The three
behaviour functions are the module callbacks. -/
structure Module where
  mid : Nat
  mtype : ModuleType
  providerType : Option ProviderType
  onCreate : AppInfo → Bool
  onDelete : AppInfo → Bool
  pull : AppInfo → String → List String → Bool

/-- One entry of `Orchestrator::_modules`: the module kind captured at
registration time together with the module reference. -/
structure RegModule where
  rtype : ModuleType
  module : Module

/-- The part of `cfg::Application` the orchestrator reads (`GetName`). -/
structure AppConfig where
  name : String
  deriving DecidableEq, Repr

/-- One observable module-callback invocation. -/
inductive Event where
  | create (mid : Nat) (app : AppInfo)
  | delete (mid : Nat) (app : AppInfo)
  | pull (mid : Nat) (app : AppInfo) (stream : String) (urls : List String)
  deriving DecidableEq

/-- The orchestrator's mutable state: `_modules`, `_module_map`, `_app_map`
(as a list, see the header comment), `_last_application_id`, `_origin_list`. -/
structure State where
  modules : List RegModule
  moduleMap : ModuleType → List Module
  appMap : List AppInfo
  lastAppId : Nat
  originList : List Origin

/-- Initial orchestrator state.  Modelled from the spec: the member
initialisers live in orchestrator.h, which is not part of the studied
sources; per the spec the counter advances from the minimum of the id range
`[0, 2^32 - 2]`, so it starts at `MinApplicationId`. -/
def initState : State :=
  { modules := []
    moduleMap := fun _ => []
    appMap := []
    lastAppId := minApplicationId
    originList := [] }

/-- Occupancy test of the application table:
`_app_map.find(id) != _app_map.end()`. -/
def occupied (apps : List AppInfo) (id : Nat) : Bool :=
  apps.any (fun a => a.id == id)

/-- `Orchestrator::RegisterModule`: reject a module already present in
`_modules` (identity comparison); otherwise append to `_modules` and to
`_module_map[type]`. -/
def registerModule (s : State) (m : Module) : Bool × State :=
  if s.modules.any (fun info => info.module.mid == m.mid) then
    (false, s)
  else
    (true,
      { s with
        modules := s.modules ++ [⟨m.mtype, m⟩]
        moduleMap := fun t =>
          if t = m.mtype then s.moduleMap t ++ [m] else s.moduleMap t })

/-- `Orchestrator::UnregisterModule`: erase the first `_modules` entry whose
reference matches.  The C++ fetches `_module_map[info->type]` after the
erase but never removes the module from that list, so `moduleMap` is left
unchanged here. -/
def unregisterModule (s : State) (m : Module) : Bool × State :=
  if s.modules.any (fun info => info.module.mid == m.mid) then
    (true, { s with modules := s.modules.eraseP (fun info => info.module.mid == m.mid) })
  else
    (false, s)

/-- The scheme table of `Orchestrator::GetProviderForScheme` applied to the
lower-cased scheme. -/
def schemeToProviderType (scheme : String) : Option ProviderType :=
  let l := lowerStr scheme
  if l = "rtmp" then some ProviderType.Rtmp
  else if l = "rtsp" then some ProviderType.Rtsp
  else if l = "ovt" then some ProviderType.Ovt
  else none

/-- `Orchestrator::GetProviderForScheme`: map the scheme to a `ProviderType`,
then return the first `_modules` entry of kind `Provider` whose cast to
`pvd::Provider` succeeds and whose provider type matches. -/
def getProviderForScheme (mods : List RegModule) (scheme : String) : Option Module :=
  match schemeToProviderType scheme with
  | none => none
  | some t =>
    (mods.find? (fun info =>
      info.rtype == ModuleType.Provider &&
        match info.module.providerType with
        | some pt => pt == t
        | none => false)).map (fun info => info.module)

/-- `Orchestrator::GetProviderForUrl`.  `parse` stands for the external
`ov::Url::Parse`.  The C++ tests `url == nullptr` — the input string, which
for any actual string is non-null — instead of `parsed_url == nullptr`, and
then dereferences `parsed_url`; the outer `none` models that null-pointer
dereference when parsing fails (`scheme` is the parsed URL's scheme). -/
def getProviderForUrl (parse : String → Option String) (mods : List RegModule)
    (url : String) : Option (Option Module) :=
  match parse url with
  | some scheme => some (getProviderForScheme mods scheme)
  | none => none

/-- `Orchestrator::Result`. -/
inductive Result where
  | Succeeded
  | Failed
  | NotExists
  | Exists
  deriving DecidableEq, Repr

/-- `Orchestrator::GetApplicationInternal(app_name)`: first table entry with
the requested name, else the invalid singleton. -/
def getApplicationByName (apps : List AppInfo) (name : String) : AppInfo :=
  (apps.find? (fun a => a.name == name)).getD invalidApplication

/-- `Orchestrator::GetApplicationInternal(app_id)`: table entry with the
requested id, else the invalid singleton. -/
def getApplicationById (apps : List AppInfo) (id : Nat) : AppInfo :=
  (apps.find? (fun a => a.id == id)).getD invalidApplication

/-- The creation-notification loop of `Orchestrator::CreateApplicationInternal`:
modules are notified in registration order, stopping at the first failure.
Returns whether every notified module succeeded, plus the invocation trace.
(The C++ also accumulates `created_list`, which is never read afterwards.) -/
def notifyModulesForCreateEvent (app : AppInfo) : List RegModule → Bool × List Event
  | [] => (true, [])
  | rm :: rest =>
    if rm.module.onCreate app then
      match notifyModulesForCreateEvent app rest with
      | (ok, evs) => (ok, Event.create rm.module.mid app :: evs)
    else
      (false, [Event.create rm.module.mid app])

/-- `Orchestrator::NotifyModulesForDeleteEvent`: every module is notified;
failures are logged and folded into a `Failed` result but do not stop the
loop. -/
def notifyModulesForDeleteEvent (app : AppInfo) : List RegModule → Result × List Event
  | [] => (Result.Succeeded, [])
  | rm :: rest =>
    match notifyModulesForDeleteEvent app rest with
    | (r, evs) =>
      if rm.module.onDelete app then
        (r, Event.delete rm.module.mid app :: evs)
      else
        (Result.Failed, Event.delete rm.module.mid app :: evs)

/-- `Orchestrator::DeleteApplicationInternal(app_id)`: locate by id (absent
gives `NotExists`), erase from the table, then notify every module. -/
def deleteApplicationInternal (s : State) (appId : Nat) : Result × State × List Event :=
  match s.appMap.find? (fun a => a.id == appId) with
  | none => (Result.NotExists, s, [])
  | some app =>
    match notifyModulesForDeleteEvent app s.modules with
    | (r, evs) =>
      (r, { s with appMap := s.appMap.filter (fun a => a.id != appId) }, evs)

/-- `Orchestrator::CreateApplicationInternal(app_info)`: scan for a name
collision (`Exists`), insert the descriptor, notify modules in order stopping
at the first failure, and on failure roll back through
`DeleteApplicationInternal` — whose result (not `Failed`!) is what the C++
returns. -/
def createApplicationInternal (s : State) (app : AppInfo) : Result × State × List Event :=
  if s.appMap.any (fun a => a.name == app.name) then
    (Result.Exists, s, [])
  else
    match notifyModulesForCreateEvent app s.modules with
    | (true, evs) =>
      (Result.Succeeded, { s with appMap := s.appMap ++ [app] }, evs)
    | (false, evs) =>
      match deleteApplicationInternal { s with appMap := s.appMap ++ [app] } app.id with
      | (r, s2, evs2) => (r, s2, evs ++ evs2)

/-- `Orchestrator::CreateApplication(app_config)`: allocate an id (this
advances `_last_application_id` before the name collision is checked), build
the descriptor from the configuration, and run the internal creation.  `none`
models divergence of the id allocator. -/
def createApplication (s : State) (cfg : AppConfig) : Option (Result × State × List Event) :=
  match getNextAppIdAux (occupied s.appMap) idFuel s.lastAppId with
  | none => none
  | some id =>
    some (createApplicationInternal { s with lastAppId := id } ⟨id, cfg.name⟩)

/-- `Orchestrator::CreateApplicationInternal(app_name, &app_info)`: allocate
an id, build a name-only descriptor, run the internal creation, and hand the
descriptor back to the caller. -/
def createApplicationByName (s : State) (name : String) :
    Option (Result × AppInfo × State × List Event) :=
  match getNextAppIdAux (occupied s.appMap) idFuel s.lastAppId with
  | none => none
  | some id =>
    match createApplicationInternal { s with lastAppId := id } ⟨id, name⟩ with
    | (r, s2, evs) => some (r, ⟨id, name⟩, s2, evs)

/-- `Orchestrator::DeleteApplication(app_info)` (by descriptor, which
delegates to the id overload). -/
def deleteApplication (s : State) (app : AppInfo) : Result × State × List Event :=
  deleteApplicationInternal s app.id

/-- `Orchestrator::PrepareOriginMap`: clear `_origin_list` and rebuild it
from the configured origins, preserving order. -/
def prepareOriginMap (s : State) (origins : List Origin) : State :=
  { s with originList := origins }

/-- `Orchestrator::RequestPullStreamForLocation`: resolve the location, look
up the provider module, ensure the application (remembering whether it
pre-existed), pull, and on pull failure roll back a creation this call made.
`none` models divergence of the id allocator inside the creation path. -/
def requestPullStreamForLocation (s : State) (appName streamName : String) :
    Option (Bool × State × List Event) :=
  match getUrlListForLocation s.originList appName streamName with
  | none => some (false, s, [])
  | some (origin, urlList) =>
    match getProviderForScheme s.modules origin.scheme with
    | none => some (false, s, [])
    | some pm =>
      let app0 := getApplicationByName s.appMap appName
      if app0.isValid then
        -- prior result: Exists
        let evPull := Event.pull pm.mid app0 streamName urlList
        if pm.pull app0 streamName urlList then
          some (true, s, [evPull])
        else
          -- Result::Exists: no rollback needed
          some (false, s, [evPull])
      else
        match createApplicationByName s appName with
        | none => none
        | some (r, app, s1, evs) =>
          if r = Result.Failed ∨ r ≠ Result.Succeeded then
            some (false, s1, evs)
          else
            let evPull := Event.pull pm.mid app streamName urlList
            if pm.pull app streamName urlList then
              some (true, s1, evs ++ [evPull])
            else
              match r with
              | Result.Succeeded =>
                -- new application was created: roll it back
                match deleteApplicationInternal s1 app.id with
                | (_, s2, evs2) => some (false, s2, evs ++ [evPull] ++ evs2)
              | _ =>
                -- unreachable (`OV_ASSERT2(false)` for Failed/NotExists,
                -- no rollback for Exists); the C++ falls through to false
                some (false, s1, evs ++ [evPull])

/-- `Orchestrator::RequestPullStream(application, stream)`. -/
def requestPullStream (s : State) (appName streamName : String) :
    Option (Bool × State × List Event) :=
  requestPullStreamForLocation s appName streamName

/-- A public operation of the orchestrator, with the data its caller
supplies (module behaviour functions travel with the module values). -/
inductive Op where
  | register (m : Module)
  | unregister (m : Module)
  | create (cfg : AppConfig)
  | delete (app : AppInfo)
  | pull (appName streamName : String)
  | prepareOrigins (origins : List Origin)

/-- Apply one public operation; an operation that diverges (allocator fuel
exhaustion) never completes and is modelled as leaving the state unchanged. -/
def applyOp (s : State) : Op → State
  | Op.register m => (registerModule s m).2
  | Op.unregister m => (unregisterModule s m).2
  | Op.create cfg =>
    match createApplication s cfg with
    | none => s
    | some (_, s1, _) => s1
  | Op.delete app => (deleteApplication s app).2.1
  | Op.pull a b =>
    match requestPullStream s a b with
    | none => s
    | some (_, s1, _) => s1
  | Op.prepareOrigins origins => prepareOriginMap s origins

/-- Run a sequence of public operations from the initial state. -/
def runOps (ops : List Op) : State :=
  ops.foldl applyOp initState

/-- Fixture: a module that accepts every callback. -/
def mOk : Module :=
  ⟨1, ModuleType.Publisher, none, fun _ => true, fun _ => true, fun _ _ _ => true⟩

/-- Fixture: a module whose `OnCreateApplication` fails while its
`OnDeleteApplication` succeeds. -/
def mFail : Module :=
  ⟨2, ModuleType.Publisher, none, fun _ => false, fun _ => true, fun _ _ _ => true⟩

/-- Fixture: two registered modules, the second rejecting creation
(spec scenario *Create rollback*). -/
def sRollback : State :=
  (registerModule (registerModule initState mOk).2 mFail).2

/-- Fixture: an OVT provider module that accepts every callback. -/
def mOvt : Module :=
  ⟨1, ModuleType.Provider, some ProviderType.Ovt, fun _ => true, fun _ => true, fun _ _ _ => true⟩

/-- Fixture: one OVT provider and the origin rule of spec scenario
*Origin splice*. -/
def sSplice : State :=
  { (registerModule initState mOvt).2 with
    originList := [⟨"/app/stream", "ovt", ["origin.example:9000/another/and"]⟩] }

/-- Fixture: an OVT provider module whose `PullStream` always fails. -/
def mPullFail : Module :=
  ⟨1, ModuleType.Provider, some ProviderType.Ovt, fun _ => true, fun _ => true, fun _ _ _ => false⟩

/-- Fixture: one provider whose pull fails, and one matching origin rule
(spec scenario *Pull rollback*). -/
def sPullFail : State :=
  { (registerModule initState mPullFail).2 with
    originList := [⟨"/new/s", "ovt", ["h/p"]⟩] }

/-- Fixture: the event trace of `RequestPullStream("new", "s")` on
`sPullFail`. -/
def evsPullFail : List Event :=
  [Event.create 1 ⟨1, "new"⟩, Event.pull 1 ⟨1, "new"⟩ "s" ["ovt://h/p"],
   Event.delete 1 ⟨1, "new"⟩]

/-- Fixture: one registered OVT provider module. -/
def sOneModule : State := (registerModule initState mOvt).2

/-- Fixture: a table already holding an application named `live` with id 1,
the counter standing at 1. -/
def sLive : State := { initState with appMap := [⟨1, "live"⟩], lastAppId := 1 }

/-- Fixture: an origin map whose first rule has no URL templates and whose
second rule, with the same location, has one. -/
def originsShadow : List Origin := [⟨"/a/s", "ovt", []⟩, ⟨"/a/s", "ovt", ["x"]⟩]

/-- Iterated candidate generation of the id allocator. -/
def iterNext : Nat → Nat → Nat
  | 0, x => x
  | k + 1, x => iterNext k (nextId x)

/-- Two table entries that collide in neither id nor name. -/
def DistinctApp (a b : AppInfo) : Prop := a.id ≠ b.id ∧ a.name ≠ b.name

/-- The application-table invariant: the counter is a `uint32_t` value that
is never left at `MaxApplicationId`, every stored id is strictly below
`MaxApplicationId` (hence in particular differs from the invalid sentinel),
and entries are pairwise distinct in id and name. -/
def TableInv (s : State) : Prop :=
  s.lastAppId < 2 ^ 32 ∧ s.lastAppId ≠ maxApplicationId ∧
    (∀ a ∈ s.appMap, a.id < maxApplicationId) ∧ s.appMap.Pairwise DistinctApp

end Orch

namespace Orch

theorem nextId_lt (c : Nat) : nextId c < 2 ^ 32 := by
  unfold nextId
  split
  · decide
  · exact Nat.mod_lt _ (by decide)

theorem nextId_ne_max (c : Nat) : nextId c ≠ maxApplicationId := by
  unfold nextId
  split
  · decide
  · assumption

theorem nextId_ne_invalid (c : Nat) (h1 : c < 2 ^ 32) (h2 : c ≠ maxApplicationId) :
    nextId c ≠ invalidApplicationId := by
  unfold nextId
  split
  · decide
  · intro hy
    simp only [invalidApplicationId, maxApplicationId, minApplicationId] at *
    omega

theorem getNextAppIdAux_some {occ : Nat → Bool} :
    ∀ {fuel last id : Nat}, getNextAppIdAux occ fuel last = some id →
      occ id = false ∧ ∃ c, id = nextId c := by
  intro fuel
  induction fuel with
  | zero => intro last id h; simp [getNextAppIdAux] at h
  | succ n ih =>
    intro last id h
    simp only [getNextAppIdAux] at h
    split at h
    · exact ih h
    · cases h
      exact ⟨Bool.eq_false_iff.mpr (by assumption), last, rfl⟩

theorem getNextAppIdAux_props {occ : Nat → Bool} :
    ∀ {fuel last id : Nat}, last < 2 ^ 32 → last ≠ maxApplicationId →
      getNextAppIdAux occ fuel last = some id →
      occ id = false ∧ id < maxApplicationId := by
  intro fuel
  induction fuel with
  | zero => intro last id _ _ h; simp [getNextAppIdAux] at h
  | succ n ih =>
    intro last id h1 h2 h
    simp only [getNextAppIdAux] at h
    split at h
    · exact ih (nextId_lt last) (nextId_ne_max last) h
    · cases h
      refine ⟨Bool.eq_false_iff.mpr (by assumption), ?_⟩
      have ha := nextId_lt last
      have hb := nextId_ne_max last
      have hc := nextId_ne_invalid last h1 h2
      simp only [invalidApplicationId, maxApplicationId] at *
      omega

theorem iterNext_add (a b x : Nat) : iterNext (a + b) x = iterNext b (iterNext a x) := by
  induction a generalizing x with
  | zero => simp [iterNext]
  | succ n ih =>
    have : n + 1 + b = (n + b) + 1 := by omega
    rw [this]
    show iterNext (n + b) (nextId x) = _
    rw [ih]
    rfl

theorem iterNext_run : ∀ (j x : Nat), x + j ≤ maxApplicationId - 1 → iterNext j x = x + j := by
  intro j
  induction j with
  | zero => intro x _; rfl
  | succ n ih =>
    intro x hx
    show iterNext n (nextId x) = x + (n + 1)
    have hlt : x + 1 < 2 ^ 32 := by
      simp only [maxApplicationId, invalidApplicationId] at hx; omega
    have hne : x + 1 ≠ maxApplicationId := by
      simp only [maxApplicationId, invalidApplicationId] at *; omega
    have hstep : nextId x = x + 1 := by
      unfold nextId
      rw [Nat.mod_eq_of_lt hlt]
      simp [hne]
    rw [hstep, ih (x + 1) (by omega)]
    omega

theorem getNextAppIdAux_of_reach {occ : Nat → Bool} :
    ∀ (fuel last k : Nat), k < fuel → occ (iterNext (k + 1) last) = false →
      ∃ id, getNextAppIdAux occ fuel last = some id ∧ occ id = false := by
  intro fuel
  induction fuel with
  | zero => intro last k hk _; omega
  | succ n ih =>
    intro last k hk hfree
    by_cases hocc : occ (nextId last) = true
    · have hk1 : k ≠ 0 := by
        intro h0
        subst h0
        simp only [iterNext] at hfree
        rw [hfree] at hocc
        simp at hocc
      obtain ⟨k1, rfl⟩ : ∃ k1, k = k1 + 1 := ⟨k - 1, by omega⟩
      have hfree1 : occ (iterNext (k1 + 1) (nextId last)) = false := hfree
      obtain ⟨id, hid, hfr⟩ := ih (nextId last) k1 (by omega) hfree1
      refine ⟨id, ?_, hfr⟩
      simp [getNextAppIdAux, hocc]
      exact hid
    · have hocc2 : occ (nextId last) = false := Bool.eq_false_iff.mpr hocc
      refine ⟨nextId last, ?_, hocc2⟩
      simp [getNextAppIdAux, hocc2]

theorem reach_target (last t : Nat) (hl : last < 2 ^ 32) (ht : t < maxApplicationId) :
    ∃ k, k < 2 ^ 32 ∧ iterNext (k + 1) last = t := by
  have hmax : maxApplicationId = 2 ^ 32 - 2 := by decide
  by_cases hcase : last < t
  · refine ⟨t - last - 1, by omega, ?_⟩
    have : t - last - 1 + 1 = t - last := by omega
    rw [this, iterNext_run (t - last) last (by omega)]
    omega
  · push_neg at hcase
    by_cases hsmall : last ≤ maxApplicationId - 1
    · -- run up to maxApplicationId - 1, wrap to 0, run to t
      refine ⟨maxApplicationId - 1 - last + t, by omega, ?_⟩
      have hsplit : maxApplicationId - 1 - last + t + 1 =
          (maxApplicationId - 1 - last) + (t + 1) := by omega
      rw [hsplit, iterNext_add]
      rw [iterNext_run (maxApplicationId - 1 - last) last (by omega)]
      have hpos : last + (maxApplicationId - 1 - last) = maxApplicationId - 1 := by omega
      rw [hpos]
      show iterNext t (nextId (maxApplicationId - 1)) = t
      have hwrap : nextId (maxApplicationId - 1) = 0 := by decide
      rw [hwrap, iterNext_run t 0 (by omega)]
      omega
    · -- last is maxApplicationId or the invalid sentinel
      push_neg at hsmall
      by_cases hm : last = maxApplicationId
      · refine ⟨t + 1, by omega, ?_⟩
        rw [hm]
        show iterNext (t + 1) (nextId maxApplicationId) = t
        have h1 : nextId maxApplicationId = invalidApplicationId := by decide
        rw [h1]
        show iterNext t (nextId invalidApplicationId) = t
        have h2 : nextId invalidApplicationId = 0 := by decide
        rw [h2, iterNext_run t 0 (by omega)]
        omega
      · have hinv : last = invalidApplicationId := by
          simp only [invalidApplicationId, maxApplicationId] at *; omega
        refine ⟨t, by omega, ?_⟩
        rw [hinv]
        show iterNext t (nextId invalidApplicationId) = t
        have h2 : nextId invalidApplicationId = 0 := by decide
        rw [h2, iterNext_run t 0 (by omega)]
        omega

end Orch

namespace Orch

theorem getNextAppIdAux_succeeds (occ : Nat → Bool) (last : Nat) (hl : last < 2 ^ 32)
    (hfree : ∃ t, t < maxApplicationId ∧ occ t = false) :
    ∃ id, getNextAppIdAux occ idFuel last = some id ∧ occ id = false := by
  obtain ⟨t, ht, htf⟩ := hfree
  obtain ⟨k, hk, hiter⟩ := reach_target last t hl ht
  exact getNextAppIdAux_of_reach idFuel last k hk (by rw [hiter]; exact htf)

theorem exists_unoccupied (apps : List AppInfo) (h : apps.length < maxApplicationId) :
    ∃ t, t < maxApplicationId ∧ occupied apps t = false := by
  by_contra hc
  push_neg at hc
  have hall : ∀ t, t < maxApplicationId → t ∈ apps.map (fun a => a.id) := by
    intro t ht
    have h1 := hc t ht
    have h2 : occupied apps t = true := by
      cases hocc : occupied apps t
      · exact absurd hocc h1
      · rfl
    simp only [occupied, List.any_eq_true] at h2
    obtain ⟨a, ha, hb⟩ := h2
    simp only [beq_iff_eq] at hb
    exact List.mem_map.mpr ⟨a, ha, hb⟩
  have hsub : Finset.range maxApplicationId ⊆ (apps.map (fun a => a.id)).toFinset := by
    intro t ht
    exact List.mem_toFinset.mpr (hall t (Finset.mem_range.mp ht))
  have hcard := Finset.card_le_card hsub
  rw [Finset.card_range] at hcard
  have h2 := (apps.map (fun a => a.id)).toFinset_card_le
  rw [List.length_map] at h2
  omega

theorem any_eq_false_of {α : Type} (p : α → Bool) :
    ∀ (l : List α), (∀ a ∈ l, p a = false) → l.any p = false := by
  intro l
  induction l with
  | nil => intro _; rfl
  | cons x xs ih =>
    intro h
    simp only [List.any_cons, h x (by simp), Bool.false_or]
    exact ih (fun a ha => h a (by simp [ha]))

theorem find?_append_of_none {α : Type} {p : α → Bool} :
    ∀ {l1 : List α}, (∀ a ∈ l1, p a = false) → ∀ (l2 : List α),
      (l1 ++ l2).find? p = l2.find? p := by
  intro l1
  induction l1 with
  | nil => intro _ l2; rfl
  | cons x xs ih =>
    intro h l2
    simp only [List.cons_append, List.find?]
    rw [h x (by simp)]
    exact ih (fun a ha => h a (by simp [ha])) l2

theorem notifyDelete_snd_cons (app : AppInfo) (m : RegModule) (rest : List RegModule) :
    (notifyModulesForDeleteEvent app (m :: rest)).2 =
      Event.delete m.module.mid app :: (notifyModulesForDeleteEvent app rest).2 := by
  cases h : notifyModulesForDeleteEvent app rest with
  | mk r evs =>
    simp only [notifyModulesForDeleteEvent, h]
    split <;> rfl

theorem notifyDelete_events (app : AppInfo) :
    ∀ (mods : List RegModule), ∀ rm ∈ mods,
      Event.delete rm.module.mid app ∈ (notifyModulesForDeleteEvent app mods).2 := by
  intro mods
  induction mods with
  | nil => intro rm h; cases h
  | cons m rest ih =>
    intro rm h
    rw [notifyDelete_snd_cons]
    rcases List.mem_cons.mp h with rfl | hmem
    · exact List.mem_cons_self _ _
    · exact List.mem_cons_of_mem _ (ih rm hmem)

theorem notifyDelete_result (app : AppInfo) :
    ∀ (mods : List RegModule), (notifyModulesForDeleteEvent app mods).1 = Result.Succeeded ∨
      (notifyModulesForDeleteEvent app mods).1 = Result.Failed := by
  intro mods
  induction mods with
  | nil => left; rfl
  | cons m rest ih =>
    cases h : notifyModulesForDeleteEvent app rest with
    | mk r evs =>
      simp only [notifyModulesForDeleteEvent, h]
      split
      · rw [h] at ih; exact ih
      · right; rfl

theorem deleteInternal_notfound (s : State) (id : Nat)
    (h : ∀ a ∈ s.appMap, (a.id == id) = false) :
    deleteApplicationInternal s id = (Result.NotExists, s, []) := by
  have hf : s.appMap.find? (fun a => a.id == id) = none :=
    List.find?_eq_none.mpr (by intro a ha; simp [h a ha])
  simp [deleteApplicationInternal, hf]

theorem deleteInternal_insert (s : State) (app : AppInfo)
    (hocc : ∀ a ∈ s.appMap, (a.id == app.id) = false) :
    deleteApplicationInternal { s with appMap := s.appMap ++ [app] } app.id =
      ((notifyModulesForDeleteEvent app s.modules).1,
       { s with appMap := s.appMap.filter (fun a => a.id != app.id) },
       (notifyModulesForDeleteEvent app s.modules).2) := by
  have hf : (s.appMap ++ [app]).find? (fun a => a.id == app.id) = some app := by
    rw [find?_append_of_none hocc]
    simp [List.find?]
  have hfl : (s.appMap ++ [app]).filter (fun a => a.id != app.id) =
      s.appMap.filter (fun a => a.id != app.id) := by
    rw [List.filter_append]
    simp [List.filter]
  cases hnd : notifyModulesForDeleteEvent app s.modules with
  | mk r evs =>
    simp only [deleteApplicationInternal, hf, hnd, hfl]

end Orch

namespace Orch

theorem tableInv_delete (s : State) (id : Nat) (h : TableInv s) :
    TableInv (deleteApplicationInternal s id).2.1 := by
  obtain ⟨h1, h2, h3, h4⟩ := h
  cases hf : s.appMap.find? (fun a => a.id == id) with
  | none =>
    simp only [deleteApplicationInternal, hf]
    exact ⟨h1, h2, h3, h4⟩
  | some app =>
    cases hnd : notifyModulesForDeleteEvent app s.modules with
    | mk r evs =>
      simp only [deleteApplicationInternal, hf, hnd]
      refine ⟨h1, h2, ?_, ?_⟩
      · intro a ha
        exact h3 a (List.mem_of_mem_filter ha)
      · exact List.Pairwise.sublist (List.filter_sublist _) h4

theorem tableInv_createInternal (s : State) (app : AppInfo) (h : TableInv s)
    (hid : app.id < maxApplicationId)
    (hocc : ∀ a ∈ s.appMap, a.id ≠ app.id) :
    TableInv (createApplicationInternal s app).2.1 := by
  obtain ⟨h1, h2, h3, h4⟩ := h
  by_cases hany : s.appMap.any (fun a => a.name == app.name) = true
  · simp only [createApplicationInternal, hany, if_true]
    exact ⟨h1, h2, h3, h4⟩
  · have hany2 : s.appMap.any (fun a => a.name == app.name) = false := by
      cases hx : s.appMap.any (fun a => a.name == app.name)
      · rfl
      · exact absurd hx hany
    have hnames : ∀ a ∈ s.appMap, a.name ≠ app.name := by
      intro a ha hEq
      have hx : s.appMap.any (fun a => a.name == app.name) = true :=
        List.any_eq_true.mpr ⟨a, ha, by simp [hEq]⟩
      rw [hx] at hany2
      cases hany2
    have hinv1 : TableInv { s with appMap := s.appMap ++ [app] } := by
      refine ⟨h1, h2, ?_, ?_⟩
      · intro a ha
        rcases List.mem_append.mp ha with hm | hm
        · exact h3 a hm
        · simp only [List.mem_singleton] at hm
          subst hm
          exact hid
      · rw [List.pairwise_append]
        refine ⟨h4, List.pairwise_singleton _ _, ?_⟩
        intro a ha b hb
        simp only [List.mem_singleton] at hb
        subst hb
        exact ⟨hocc a ha, hnames a ha⟩
    cases hnc : notifyModulesForCreateEvent app s.modules with
    | mk ok evs =>
      cases ok with
      | true =>
        simp only [createApplicationInternal, hany2, Bool.false_eq_true, if_false, hnc]
        exact hinv1
      | false =>
        cases hd : deleteApplicationInternal { s with appMap := s.appMap ++ [app] } app.id with
        | mk r rest =>
          cases rest with
          | mk s2 evs2 =>
            simp only [createApplicationInternal, hany2, Bool.false_eq_true, if_false, hnc, hd]
            have hres := tableInv_delete { s with appMap := s.appMap ++ [app] } app.id hinv1
            rw [hd] at hres
            exact hres

theorem tableInv_counter (s : State) (id : Nat) (h : TableInv s) (hlt : id < maxApplicationId) :
    TableInv { s with lastAppId := id } := by
  obtain ⟨_, _, h3, h4⟩ := h
  refine ⟨?_, ?_, h3, h4⟩
  · show id < 2 ^ 32
    simp only [maxApplicationId, invalidApplicationId] at hlt
    omega
  · show id ≠ maxApplicationId
    omega

theorem occ_false_forall (apps : List AppInfo) (id : Nat)
    (hof : occupied apps id = false) : ∀ a ∈ apps, a.id ≠ id := by
  intro a ha hEq
  have hx : occupied apps id = true := by
    simp only [occupied]
    exact List.any_eq_true.mpr ⟨a, ha, by simp [hEq]⟩
  rw [hx] at hof
  cases hof

theorem createApplication_eq_some (s : State) (cfg : AppConfig) {id : Nat}
    (halloc : getNextAppIdAux (occupied s.appMap) idFuel s.lastAppId = some id) :
    createApplication s cfg =
      some (createApplicationInternal { s with lastAppId := id } ⟨id, cfg.name⟩) := by
  unfold createApplication
  rw [halloc]

theorem createApplicationByName_eq_some (s : State) (name : String) {id : Nat}
    (halloc : getNextAppIdAux (occupied s.appMap) idFuel s.lastAppId = some id) :
    createApplicationByName s name =
      some ((createApplicationInternal { s with lastAppId := id } ⟨id, name⟩).1, ⟨id, name⟩,
            (createApplicationInternal { s with lastAppId := id } ⟨id, name⟩).2.1,
            (createApplicationInternal { s with lastAppId := id } ⟨id, name⟩).2.2) := by
  unfold createApplicationByName
  rw [halloc]

theorem tableInv_create (s : State) (cfg : AppConfig) (h : TableInv s) :
    ∀ {r : Result} {s1 : State} {evs : List Event},
      createApplication s cfg = some (r, s1, evs) → TableInv s1 := by
  intro r s1 evs hc
  cases halloc : getNextAppIdAux (occupied s.appMap) idFuel s.lastAppId with
  | none =>
    unfold createApplication at hc
    rw [halloc] at hc
    cases hc
  | some id =>
    rw [createApplication_eq_some s cfg halloc] at hc
    obtain ⟨hof, hlt⟩ := getNextAppIdAux_props h.1 h.2.1 halloc
    have hocc := occ_false_forall s.appMap id hof
    have hstate := tableInv_counter s id h hlt
    have hres := tableInv_createInternal { s with lastAppId := id } ⟨id, cfg.name⟩ hstate hlt hocc
    simp only [Option.some.injEq] at hc
    rw [hc] at hres
    exact hres

theorem tableInv_createByName (s : State) (name : String) (h : TableInv s) :
    ∀ {r : Result} {app : AppInfo} {s1 : State} {evs : List Event},
      createApplicationByName s name = some (r, app, s1, evs) → TableInv s1 := by
  intro r app s1 evs hc
  cases halloc : getNextAppIdAux (occupied s.appMap) idFuel s.lastAppId with
  | none =>
    unfold createApplicationByName at hc
    rw [halloc] at hc
    cases hc
  | some id =>
    rw [createApplicationByName_eq_some s name halloc] at hc
    obtain ⟨hof, hlt⟩ := getNextAppIdAux_props h.1 h.2.1 halloc
    have hocc := occ_false_forall s.appMap id hof
    have hstate := tableInv_counter s id h hlt
    have hres := tableInv_createInternal { s with lastAppId := id } ⟨id, name⟩ hstate hlt hocc
    simp only [Option.some.injEq, Prod.mk.injEq] at hc
    rw [← hc.2.2.1]
    exact hres

end Orch

namespace Orch

theorem tableInv_pull (s : State) (a b : String) (h : TableInv s) :
    ∀ {res : Bool} {s1 : State} {evs : List Event},
      requestPullStream s a b = some (res, s1, evs) → TableInv s1 := by
  intro res s1 evs hc
  unfold requestPullStream requestPullStreamForLocation at hc
  cases hres : getUrlListForLocation s.originList a b with
  | none =>
    simp only [hres, Option.some.injEq, Prod.mk.injEq] at hc
    rw [← hc.2.1]; exact h
  | some p =>
    obtain ⟨origin, urlList⟩ := p
    simp only [hres] at hc
    cases hpm : getProviderForScheme s.modules origin.scheme with
    | none =>
      simp only [hpm, Option.some.injEq, Prod.mk.injEq] at hc
      rw [← hc.2.1]; exact h
    | some pm =>
      simp only [hpm] at hc
      by_cases hval : (getApplicationByName s.appMap a).isValid = true
      · rw [if_pos hval] at hc
        cases hpull : pm.pull (getApplicationByName s.appMap a) b urlList
        · simp only [hpull, Bool.false_eq_true, if_false, Option.some.injEq,
            Prod.mk.injEq] at hc
          rw [← hc.2.1]; exact h
        · simp only [hpull, if_true, Option.some.injEq, Prod.mk.injEq] at hc
          rw [← hc.2.1]; exact h
      · rw [if_neg hval] at hc
        cases hcb : createApplicationByName s a with
        | none =>
          simp only [hcb] at hc
          exact Option.noConfusion hc
        | some q =>
          obtain ⟨r, app, s2, evs2⟩ := q
          have hs2 : TableInv s2 := tableInv_createByName s a h hcb
          simp only [hcb] at hc
          by_cases hcond : r = Result.Failed ∨ r ≠ Result.Succeeded
          · rw [if_pos hcond] at hc
            simp only [Option.some.injEq, Prod.mk.injEq] at hc
            rw [← hc.2.1]; exact hs2
          · rw [if_neg hcond] at hc
            push_neg at hcond
            obtain ⟨hrf, hrs⟩ := hcond
            subst hrs
            cases hpull : pm.pull app b urlList
            · simp only [hpull, Bool.false_eq_true, if_false] at hc
              cases hd : deleteApplicationInternal s2 app.id with
              | mk r2 rest =>
                cases rest with
                | mk s3 evs3 =>
                  simp only [hd, Option.some.injEq, Prod.mk.injEq] at hc
                  rw [← hc.2.1]
                  have hdel := tableInv_delete s2 app.id hs2
                  rw [hd] at hdel
                  exact hdel
            · simp only [hpull, if_true, Option.some.injEq, Prod.mk.injEq] at hc
              rw [← hc.2.1]; exact hs2

theorem tableInv_applyOp (s : State) (op : Op) (h : TableInv s) : TableInv (applyOp s op) := by
  cases op with
  | register m =>
    simp only [applyOp]
    unfold registerModule
    split
    · exact h
    · exact ⟨h.1, h.2.1, h.2.2.1, h.2.2.2⟩
  | unregister m =>
    simp only [applyOp]
    unfold unregisterModule
    split
    · exact ⟨h.1, h.2.1, h.2.2.1, h.2.2.2⟩
    · exact h
  | create cfg =>
    simp only [applyOp]
    cases hc : createApplication s cfg with
    | none => exact h
    | some t =>
      obtain ⟨r, s1, evs⟩ := t
      exact tableInv_create s cfg h hc
  | delete app =>
    simp only [applyOp]
    unfold deleteApplication
    exact tableInv_delete s app.id h
  | pull a b =>
    simp only [applyOp]
    cases hc : requestPullStream s a b with
    | none => exact h
    | some t =>
      obtain ⟨r, s1, evs⟩ := t
      exact tableInv_pull s a b h hc
  | prepareOrigins l =>
    simp only [applyOp, prepareOriginMap]
    exact ⟨h.1, h.2.1, h.2.2.1, h.2.2.2⟩

theorem tableInv_foldl : ∀ (l : List Op) (s : State), TableInv s → TableInv (l.foldl applyOp s) := by
  intro l
  induction l with
  | nil => intro s h; exact h
  | cons op rest ih =>
    intro s h
    exact ih _ (tableInv_applyOp s op h)

theorem tableInv_runOps (ops : List Op) : TableInv (runOps ops) := by
  refine tableInv_foldl ops initState ⟨by decide, by decide, ?_, ?_⟩
  · intro a ha
    simp [initState] at ha
  · simp [initState]

end Orch

namespace Orch

theorem getUrlListForLocationAux_spec (location : String) :
    ∀ (origins : List Origin) (o : Origin) (urls : List String),
      getUrlListForLocationAux location origins = some (o, urls) →
      origins.find? (fun r => strHasPrefix location r.location) = some o ∧
      urls = o.urlList.map
        (fun t => o.scheme ++ "://" ++ t ++ strDrop location (strLen o.location)) := by
  intro origins
  induction origins with
  | nil => intro o urls h; simp [getUrlListForLocationAux] at h
  | cons x rest ih =>
    intro o urls h
    cases hp : strHasPrefix location x.location with
    | true =>
      simp only [getUrlListForLocationAux, hp, if_true] at h
      split at h
      · simp only [Option.some.injEq, Prod.mk.injEq] at h
        obtain ⟨ho, hu⟩ := h
        subst ho
        exact ⟨List.find?_cons_of_pos _ hp, hu.symm⟩
      · exact Option.noConfusion h
    | false =>
      simp only [getUrlListForLocationAux, hp, Bool.false_eq_true, if_false] at h
      obtain ⟨hfind, hurls⟩ := ih o urls h
      refine ⟨?_, hurls⟩
      rw [List.find?_cons_of_neg _ (by simp [hp])]
      exact hfind

theorem getUrlList_none_of_empty (location : String) :
    ∀ (origins : List Origin) (o : Origin),
      origins.find? (fun r => strHasPrefix location r.location) = some o →
      o.urlList = [] →
      getUrlListForLocationAux location origins = none := by
  intro origins
  induction origins with
  | nil => intro o h _; simp [List.find?] at h
  | cons x rest ih =>
    intro o h hempty
    cases hp : strHasPrefix location x.location with
    | true =>
      rw [@List.find?_cons_of_pos _ (fun r => strHasPrefix location r.location) x rest hp] at h
      injection h with h
      subst h
      simp only [getUrlListForLocationAux, hp, if_true, hempty]
      simp
    | false =>
      rw [@List.find?_cons_of_neg _ (fun r => strHasPrefix location r.location) x rest
        (by simp [hp])] at h
      simp only [getUrlListForLocationAux, hp, Bool.false_eq_true, if_false]
      exact ih o h hempty

theorem no_name_of_invalid (apps : List AppInfo) (name : String)
    (hv : ∀ a ∈ apps, a.id ≠ invalidApplicationId)
    (h : (getApplicationByName apps name).isValid = false) :
    ∀ a ∈ apps, (a.name == name) = false := by
  intro a ha
  cases hf : apps.find? (fun x => x.name == name) with
  | none =>
    have hn := List.find?_eq_none.mp hf a ha
    cases hx : a.name == name
    · rfl
    · exact absurd hx hn
  | some x =>
    have hmem := List.mem_of_find?_eq_some hf
    have hg : getApplicationByName apps name = x := by
      simp [getApplicationByName, hf]
    rw [hg] at h
    simp [AppInfo.isValid] at h
    exact absurd h (hv x hmem)

end Orch

namespace Orch

theorem ne_to_beq_false {a b : Nat} (h : a ≠ b) : (a == b) = false := by
  simp [h]

theorem filter_no_name (apps : List AppInfo) (name : String) (id : Nat)
    (hnoname : ∀ a ∈ apps, (a.name == name) = false) :
    ∀ a ∈ apps.filter (fun a => a.id != id), a.name ≠ name := by
  intro a ha hEq
  have hmem := List.mem_of_mem_filter ha
  have hx := hnoname a hmem
  rw [hEq] at hx
  simp at hx

theorem filter_id_false (apps : List AppInfo) (id : Nat) :
    ∀ a ∈ apps.filter (fun a => a.id != id), (a.id == id) = false := by
  intro a ha
  have h1 := List.of_mem_filter ha
  cases hx : a.id == id
  · rfl
  · exfalso
    rw [bne_iff_ne] at h1
    exact h1 (by simpa using hx)

theorem createInternal_fresh (s : State) (app : AppInfo)
    (hany : s.appMap.any (fun a => a.name == app.name) = false)
    (hocc : ∀ a ∈ s.appMap, (a.id == app.id) = false) :
    (createApplicationInternal s app =
        (Result.Succeeded, { s with appMap := s.appMap ++ [app] },
          (notifyModulesForCreateEvent app s.modules).2) ∧
      (notifyModulesForCreateEvent app s.modules).1 = true) ∨
    (createApplicationInternal s app =
        ((notifyModulesForDeleteEvent app s.modules).1,
          { s with appMap := s.appMap.filter (fun a => a.id != app.id) },
          (notifyModulesForCreateEvent app s.modules).2 ++
            (notifyModulesForDeleteEvent app s.modules).2) ∧
      (notifyModulesForCreateEvent app s.modules).1 = false) := by
  cases hnc : notifyModulesForCreateEvent app s.modules with
  | mk ok evsC =>
    cases ok with
    | false =>
      right
      constructor
      · simp only [createApplicationInternal, hany, Bool.false_eq_true, if_false, hnc]
        rw [deleteInternal_insert s app hocc]
      · simp [hnc]
    | true =>
      left
      constructor
      · simp only [createApplicationInternal, hany, Bool.false_eq_true, if_false, hnc]
      · simp [hnc]

end Orch

namespace Orch

/-- C2: in a `RequestPullStream` call where resolution and provider lookup
succeed and the provider's `PullStream` refuses, the call returns false; if
the application pre-existed its table entry is untouched, and if it did not,
no application of that name remains in the table and every registered module
received `OnDeleteApplication` for the application created by this call. -/
theorem c2_pull_failure_rollback (s : State) (appName streamName : String)
    (origin : Origin) (urlList : List String) (pm : Module)
    (hres : getUrlListForLocation s.originList appName streamName = some (origin, urlList))
    (hpm : getProviderForScheme s.modules origin.scheme = some pm)
    (hpull : ∀ app : AppInfo, pm.pull app streamName urlList = false)
    (hval0 : ∀ a ∈ s.appMap, a.id ≠ invalidApplicationId)
    {b : Bool} {s1 : State} {evs : List Event}
    (hrun : requestPullStream s appName streamName = some (b, s1, evs)) :
    b = false ∧
    ((getApplicationByName s.appMap appName).isValid = true → s1.appMap = s.appMap) ∧
    ((getApplicationByName s.appMap appName).isValid = false →
      (∀ a ∈ s1.appMap, a.name ≠ appName) ∧
      ∃ app : AppInfo, app.name = appName ∧
        ∀ rm ∈ s.modules, Event.delete rm.module.mid app ∈ evs) := by
  unfold requestPullStream requestPullStreamForLocation at hrun
  simp only [hres, hpm] at hrun
  by_cases hval : (getApplicationByName s.appMap appName).isValid = true
  · rw [if_pos hval, hpull] at hrun
    simp only [Bool.false_eq_true, if_false, Option.some.injEq, Prod.mk.injEq] at hrun
    obtain ⟨hb, hs, hevs⟩ := hrun
    refine ⟨hb.symm, fun _ => by rw [← hs], fun hcontra => ?_⟩
    cases hval.symm.trans hcontra
  · have hval2 : (getApplicationByName s.appMap appName).isValid = false :=
      Bool.eq_false_iff.mpr hval
    rw [if_neg hval] at hrun
    have hnoname := no_name_of_invalid s.appMap appName hval0 hval2
    have hnames2 : ∀ a ∈ s.appMap, a.name ≠ appName := by
      intro a ha hEq
      have hx := hnoname a ha
      rw [hEq] at hx
      simp at hx
    cases halloc : getNextAppIdAux (occupied s.appMap) idFuel s.lastAppId with
    | none =>
      rw [show createApplicationByName s appName = none from by
        unfold createApplicationByName; rw [halloc]] at hrun
      exact Option.noConfusion hrun
    | some id =>
      obtain ⟨hof, _⟩ := getNextAppIdAux_some halloc
      have hoccb : ∀ a ∈ s.appMap, (a.id == id) = false := fun a ha =>
        ne_to_beq_false (occ_false_forall s.appMap id hof a ha)
      have hany2 : s.appMap.any (fun a => a.name == appName) = false :=
        any_eq_false_of _ s.appMap hnoname
      rw [createApplicationByName_eq_some s appName halloc] at hrun
      rcases createInternal_fresh { s with lastAppId := id } ⟨id, appName⟩ hany2 hoccb
        with ⟨hci, hok⟩ | ⟨hci, hok⟩
      · -- creation fully succeeded, then the failed pull rolls it back
        rw [hci] at hrun
        dsimp only at hrun
        rw [if_neg (show ¬(Result.Succeeded = Result.Failed ∨
          Result.Succeeded ≠ Result.Succeeded) by decide)] at hrun
        rw [hpull] at hrun
        simp only [Bool.false_eq_true, if_false] at hrun
        have hdel := deleteInternal_insert { s with lastAppId := id } ⟨id, appName⟩ hoccb
        rw [hdel] at hrun
        dsimp only at hrun
        simp only [Option.some.injEq, Prod.mk.injEq] at hrun
        obtain ⟨hb, hs, hevs⟩ := hrun
        refine ⟨hb.symm, fun hcontra => ?_, fun _ => ⟨?_, ⟨id, appName⟩, rfl, ?_⟩⟩
        · cases hval2.symm.trans hcontra
        · rw [← hs]
          exact filter_no_name s.appMap appName id hnoname
        · intro rm hrm
          rw [← hevs]
          exact List.mem_append_right _ (notifyDelete_events ⟨id, appName⟩ s.modules rm hrm)
      · -- a module refused creation: rollback happened inside the create
        rw [hci] at hrun
        dsimp only at hrun
        rcases notifyDelete_result ⟨id, appName⟩ s.modules with hr | hr
        · -- rollback delete reported Succeeded: the buggy create returns
          -- Succeeded and the pull path deletes an already-absent entry
          rw [hr] at hrun
          rw [if_neg (show ¬(Result.Succeeded = Result.Failed ∨
            Result.Succeeded ≠ Result.Succeeded) by decide)] at hrun
          rw [hpull] at hrun
          simp only [Bool.false_eq_true, if_false] at hrun
          have hnf := deleteInternal_notfound
            { s with lastAppId := id, appMap := s.appMap.filter (fun a => a.id != id) } id
            (filter_id_false s.appMap id)
          rw [hnf] at hrun
          dsimp only at hrun
          simp only [Option.some.injEq, Prod.mk.injEq] at hrun
          obtain ⟨hb, hs, hevs⟩ := hrun
          refine ⟨hb.symm, fun hcontra => ?_, fun _ => ⟨?_, ⟨id, appName⟩, rfl, ?_⟩⟩
          · cases hval2.symm.trans hcontra
          · rw [← hs]
            exact filter_no_name s.appMap appName id hnoname
          · intro rm hrm
            rw [← hevs]
            refine List.mem_append_left _ (List.mem_append_left _ ?_)
            exact List.mem_append_right _ (notifyDelete_events ⟨id, appName⟩ s.modules rm hrm)
        · -- rollback delete reported Failed: the create returns Failed and
          -- the call short-circuits to false
          rw [hr] at hrun
          rw [if_pos (show Result.Failed = Result.Failed ∨
            Result.Failed ≠ Result.Succeeded by decide)] at hrun
          simp only [Option.some.injEq, Prod.mk.injEq] at hrun
          obtain ⟨hb, hs, hevs⟩ := hrun
          refine ⟨hb.symm, fun hcontra => ?_, fun _ => ⟨?_, ⟨id, appName⟩, rfl, ?_⟩⟩
          · cases hval2.symm.trans hcontra
          · rw [← hs]
            exact filter_no_name s.appMap appName id hnoname
          · intro rm hrm
            rw [← hevs]
            exact List.mem_append_right _ (notifyDelete_events ⟨id, appName⟩ s.modules rm hrm)

end Orch

namespace Orch

/-- C1: evaluating `CreateApplication` on a state with two modules where the
second refuses creation.  The loop stops after the failing module, the
descriptor is removed, every module receives `OnDeleteApplication` — but the
call returns the rollback delete fan-out result, which is `Succeeded` (not
`Failed` as spec and claim require), and `GetApplication("live")` afterwards
yields the invalid singleton. -/
theorem c1_create_rollback_eval :
    (createApplication sRollback ⟨"live"⟩).map
        (fun r => (r.1, r.2.1.appMap, r.2.2)) =
      some (Result.Succeeded, ([] : List AppInfo),
        [Event.create 1 ⟨1, "live"⟩, Event.create 2 ⟨1, "live"⟩,
         Event.delete 1 ⟨1, "live"⟩, Event.delete 2 ⟨1, "live"⟩]) ∧
    (createApplication sRollback ⟨"live"⟩).map
        (fun r => getApplicationByName r.2.1.appMap "live") =
      some invalidApplication := by
  constructor <;> decide

/-- C2 witness: the concrete *Pull rollback* scenario on `sPullFail`. -/
theorem c2_pull_failure_rollback_witness :
    false = false ∧
    ((getApplicationByName sPullFail.appMap "new").isValid = true →
      ({ sPullFail with lastAppId := 1, appMap := [] } : State).appMap =
        sPullFail.appMap) ∧
    ((getApplicationByName sPullFail.appMap "new").isValid = false →
      (∀ a ∈ ({ sPullFail with lastAppId := 1, appMap := [] } : State).appMap,
        a.name ≠ "new") ∧
      ∃ app : AppInfo, app.name = "new" ∧
        ∀ rm ∈ sPullFail.modules, Event.delete rm.module.mid app ∈ evsPullFail) :=
  c2_pull_failure_rollback sPullFail "new" "s" ⟨"/new/s", "ovt", ["h/p"]⟩
    ["ovt://h/p"] mPullFail (by decide) (by rfl) (fun _ => rfl) (by decide) (by rfl)

/-- C3: whenever location resolution returns a rule and a URL list, the rule
is the first configured rule whose location is a byte-prelude of
`"/" ++ app ++ "/" ++ stream`, and the URLs are one per template, each
`scheme ++ "://" ++ template ++ suffix`; and the *Origin splice* scenario
pulls `stream_o` with exactly `["ovt://origin.example:9000/another/and_o"]`. -/
theorem c3_resolution_splice :
    (∀ (origins : List Origin) (a b : String) (o : Origin) (urls : List String),
      getUrlListForLocation origins a b = some (o, urls) →
        firstMatchingOrigin origins (locationOf a b) = some o ∧
        urls = o.urlList.map
          (fun t => o.scheme ++ "://" ++ t ++
            strDrop (locationOf a b) (strLen o.location))) ∧
    (requestPullStream sSplice "app" "stream_o").map (fun r => (r.1, r.2.2)) =
      some (true, [Event.create 1 ⟨1, "app"⟩,
        Event.pull 1 ⟨1, "app"⟩ "stream_o"
          ["ovt://origin.example:9000/another/and_o"]]) := by
  constructor
  · intro origins a b o urls h
    exact getUrlListForLocationAux_spec (locationOf a b) origins o urls h
  · decide

/-- C3 witness: the general conjunct applied to the *Origin splice* rule. -/
theorem c3_resolution_splice_witness :
    firstMatchingOrigin [⟨"/app/stream", "ovt", ["origin.example:9000/another/and"]⟩]
        (locationOf "app" "stream_o") =
      some ⟨"/app/stream", "ovt", ["origin.example:9000/another/and"]⟩ ∧
    ["ovt://origin.example:9000/another/and_o"] =
      (⟨"/app/stream", "ovt", ["origin.example:9000/another/and"]⟩ : Origin).urlList.map
        (fun t => (⟨"/app/stream", "ovt",
            ["origin.example:9000/another/and"]⟩ : Origin).scheme ++ "://" ++ t ++
          strDrop (locationOf "app" "stream_o")
            (strLen (⟨"/app/stream", "ovt",
              ["origin.example:9000/another/and"]⟩ : Origin).location)) :=
  c3_resolution_splice.1
    [⟨"/app/stream", "ovt", ["origin.example:9000/another/and"]⟩] "app" "stream_o"
    ⟨"/app/stream", "ovt", ["origin.example:9000/another/and"]⟩
    ["ovt://origin.example:9000/another/and_o"] (by decide)

/-- C4 counterexample: with the counter at `2^32 - 3` and an empty table the
next candidate is `MaxApplicationId = 2^32 - 2`, and the allocator wraps to
the minimum right there — before the invalid sentinel is ever reached — so
it returns `0`, not the `2^32 - 2` the claim's wrap condition predicts. -/
theorem c4_counterexample_wrap :
    getNextAppIdAux (fun _ => false) 1 (2 ^ 32 - 3) = some minApplicationId ∧
    getNextAppIdAux (fun _ => false) 1 (2 ^ 32 - 3) ≠ some maxApplicationId := by
  constructor <;> decide

/-- C4 (amended): the counter wraps to the minimum exactly when the
incremented value reaches `MaxApplicationId` (2^32 - 2), and for every table
with fewer than `MaxApplicationId` entries the allocator terminates within
`2^32` steps with an id not present in the table. -/
theorem c4_allocator_terminates :
    (∀ c : Nat, (c + 1) % 2 ^ 32 = maxApplicationId → nextId c = minApplicationId) ∧
    (∀ (apps : List AppInfo) (last : Nat), last < 2 ^ 32 →
      apps.length < maxApplicationId →
      ∃ id, getNextAppIdAux (occupied apps) idFuel last = some id ∧
        occupied apps id = false) := by
  constructor
  · intro c h
    unfold nextId
    rw [if_pos h]
  · intro apps last hl hlen
    exact getNextAppIdAux_succeeds (occupied apps) last hl (exists_unoccupied apps hlen)

/-- C4 witness: the allocation conjunct at the empty table and counter 0. -/
theorem c4_allocator_terminates_witness :
    ∃ id, getNextAppIdAux (occupied []) idFuel 0 = some id ∧
      occupied [] id = false :=
  c4_allocator_terminates.2 [] 0 (by decide) (by decide)

/-- C5: `GetProviderForUrl` checks `url == nullptr` — the input string, never
null — instead of the parse result, then dereferences the parse result: for
every parser and every URL the parser rejects, the lookup crashes (modelled
as the outer `none`) instead of returning absent as the claim states. -/
theorem c5_parse_failure_crash (parse : String → Option String)
    (mods : List RegModule) (url : String) (h : parse url = none) :
    getProviderForUrl parse mods url = none := by
  simp [getProviderForUrl, h]

/-- C5 witness: a concrete unparseable URL. -/
theorem c5_parse_failure_crash_witness :
    getProviderForUrl (fun _ => none) [] "no-scheme-url" = none :=
  c5_parse_failure_crash (fun _ => none) [] "no-scheme-url" rfl

/-- C6: after `Register M; Unregister M` (which returns true) the module is
gone from the flat sequence but still present in the per-kind typed view,
and a further `Register M` leaves it twice in the typed view — refuting both
the no-duplicates invariant and absence-after-unregister. -/
theorem c6_unregister_typed_view :
    (unregisterModule sOneModule mOvt).1 = true ∧
    (unregisterModule sOneModule mOvt).2.modules.map (fun rm => rm.module.mid) = [] ∧
    ((unregisterModule sOneModule mOvt).2.moduleMap ModuleType.Provider).map
      (fun m => m.mid) = [1] ∧
    ((registerModule (unregisterModule sOneModule mOvt).2 mOvt).2.moduleMap
      ModuleType.Provider).map (fun m => m.mid) = [1, 1] ∧
    (registerModule (unregisterModule sOneModule mOvt).2 mOvt).2.modules.map
      (fun rm => rm.module.mid) = [1] := by
  refine ⟨?_, ?_, ?_, ?_, ?_⟩ <;> decide

/-- C7 counterexample: a zero-template rule that matches first shadows a
later matching rule, so removing zero-template rules changes the result of
resolution — the claimed equivalence fails on `originsShadow`. -/
theorem c7_counterexample_shadowing :
    ¬ (getUrlListForLocation originsShadow "a" "s" =
        getUrlListForLocation (originsShadow.filter (fun o => !o.urlList.isEmpty))
          "a" "s") := by
  decide

/-- C7 (amended): a rule with an empty template list never produces URLs —
when the first byte-prelude-matching rule has no templates, resolution
returns absent (but such a rule still consumes the first match, so deleting
zero-template rules is not result-preserving in general). -/
theorem c7_empty_rule_absent (origins : List Origin) (a b : String) (o : Origin)
    (hfirst : firstMatchingOrigin origins (locationOf a b) = some o)
    (hempty : o.urlList = []) :
    getUrlListForLocation origins a b = none :=
  getUrlList_none_of_empty (locationOf a b) origins o hfirst hempty

/-- C7 witness: a single zero-template matching rule resolves to absent. -/
theorem c7_empty_rule_absent_witness :
    getUrlListForLocation [⟨"/a/s", "x", []⟩] "a" "s" = none :=
  c7_empty_rule_absent [⟨"/a/s", "x", []⟩] "a" "s" ⟨"/a/s", "x", []⟩ (by decide) rfl

/-- C8 counterexample: `CreateApplication` on a state already holding
`"live"` returns `Exists` with the table untouched and no creation events,
but the id-allocator counter has advanced from 1 to 2 — `GetNextAppId` runs
before the existence check, refuting "mutates nothing". -/
theorem c8_counterexample_counter :
    (createApplication sLive ⟨"live"⟩).map
        (fun r => (r.1, r.2.1.appMap, r.2.1.lastAppId, r.2.2)) =
      some (Result.Exists, [(⟨1, "live"⟩ : AppInfo)], 2, ([] : List Event)) ∧
    sLive.lastAppId ≠ 2 := by
  constructor <;> decide

/-- C8 (amended): when the name is already present and the id allocation
succeeds, `CreateApplication` returns `Exists`, the table is unchanged and
no module callback fires — but the allocator counter has been advanced to
the freshly allocated (and discarded) id. -/
theorem c8_exists_frame (s : State) (cfg : AppConfig) (id : Nat)
    (halloc : getNextAppIdAux (occupied s.appMap) idFuel s.lastAppId = some id)
    (hname : s.appMap.any (fun a => a.name == cfg.name) = true) :
    createApplication s cfg = some (Result.Exists, { s with lastAppId := id }, []) := by
  rw [createApplication_eq_some s cfg halloc]
  simp [createApplicationInternal, hname]

/-- C8 witness: the amended statement on the concrete `sLive` state. -/
theorem c8_exists_frame_witness :
    createApplication sLive ⟨"live"⟩ =
      some (Result.Exists, { sLive with lastAppId := 2 }, []) :=
  c8_exists_frame sLive ⟨"live"⟩ 2 (by decide) (by decide)

/-- C9: after every sequence of public operations from the initial state, no
table id equals the invalid sentinel and any two distinct descriptors differ
in both id and name. -/
theorem c9_table_invariant (ops : List Op) :
    (∀ a ∈ (runOps ops).appMap, a.id ≠ invalidApplicationId) ∧
    (runOps ops).appMap.Pairwise DistinctApp := by
  obtain ⟨h1, h2, h3, h4⟩ := tableInv_runOps ops
  refine ⟨?_, h4⟩
  intro a ha
  have hx := h3 a ha
  simp only [maxApplicationId, invalidApplicationId] at *
  omega

/-- C9 witness: the invariant after a single successful creation. -/
theorem c9_table_invariant_witness :
    ((⟨1, "a"⟩ : AppInfo).id ≠ invalidApplicationId) ∧
    (runOps [Op.create ⟨"a"⟩]).appMap.Pairwise DistinctApp :=
  ⟨(c9_table_invariant [Op.create ⟨"a"⟩]).1 ⟨1, "a"⟩ (by decide),
   (c9_table_invariant [Op.create ⟨"a"⟩]).2⟩

/-- C10: the allocator never returns `MaxApplicationId` — every candidate
that equals it is replaced by the minimum before the occupancy test — and
consequently no descriptor in any reachable table carries that id. -/
theorem c10_never_max :
    (∀ (occ : Nat → Bool) (fuel last id : Nat),
      getNextAppIdAux occ fuel last = some id → id ≠ maxApplicationId) ∧
    (∀ (ops : List Op), ∀ a ∈ (runOps ops).appMap, a.id ≠ maxApplicationId) := by
  constructor
  · intro occ fuel last id h
    obtain ⟨_, c, hc⟩ := getNextAppIdAux_some h
    rw [hc]
    exact nextId_ne_max c
  · intro ops a ha
    have hx := (tableInv_runOps ops).2.2.1 a ha
    omega

/-- C10 witness: a concrete allocation that returns 6, which is not the
maximal id. -/
theorem c10_never_max_witness : (6 : Nat) ≠ maxApplicationId :=
  c10_never_max.1 (fun _ => false) 1 5 6 (by decide)

end Orch
